import Mathlib

/-!
Verification of the Team-Planner invitation/permission model.

The repository implements the same business rules twice:
* a client-side, localStorage-backed service (`src/services/dataService.ts`),
  embedded below in namespace `Client`;
* a server-side, Postgres-backed REST API (`backend/routes/*.js`),
  embedded below in namespace `Server`.

Dates are modelled as `Nat` milliseconds; ids and emails as `String`.
Each TypeScript/SQL operation becomes a pure Lean function over an explicit
state (the localStorage contents, resp. the database rows); in-place
`findIndex` + mutation patterns become key-based list updates (keys are
unique in both stores).
-/

/-- Status of an invitation: pending, accepted or rejected. -/
inductive InvStatus
  | pending
  | accepted
  | rejected
deriving DecidableEq, Repr

/-- Status of a task: pending, in-progress or completed. -/
inductive TaskStatus
  | pending
  | inProgress
  | completed
deriving DecidableEq, Repr

/-- Task priority levels. -/
inductive TaskPriority
  | low
  | medium
  | high
  | urgent
deriving DecidableEq, Repr

/-- Per-project permission flags (`Project.settings` in `types.ts`). -/
structure ProjectSettings where
  allowMemberTaskEdit : Bool
  allowMemberTaskCreate : Bool
  allowMemberInvite : Bool
deriving DecidableEq, Repr

/-- Seven days in milliseconds, the invitation lifetime
(`7 * 24 * 60 * 60 * 1000` in both implementations). -/
def sevenDaysMs : Nat := 7 * 24 * 60 * 60 * 1000

namespace Client

/-- Client-side project record (`dataService.ts`; `settings` is optional in
`types.ts`, and the service reads it with `project.settings?.flag`, which is
falsy when absent). -/
structure Project where
  projectId : String
  title : String
  description : String
  ownerId : String
  members : List String
  settings : Option ProjectSettings
  createdAt : Nat
  updatedAt : Nat
deriving DecidableEq, Repr

/-- Client-side invitation record (`ProjectInvitation` in `dataService.ts`). -/
structure ProjectInvitation where
  invitationId : String
  projectId : String
  inviterUserId : String
  inviteeEmail : String
  status : InvStatus
  createdAt : Nat
  expiresAt : Nat
deriving DecidableEq, Repr

/-- Client-side task record (the fields of `Task` that `dataService.ts`
reads or writes; the service accesses the assignee as `task.assignee`). -/
structure Task where
  taskId : String
  projectId : String
  title : String
  description : String
  status : TaskStatus
  priority : TaskPriority
  assignee : Option String
  completedAt : Option Nat
  createdAt : Nat
  updatedAt : Nat
deriving DecidableEq, Repr

/-- A `Partial<Task>` update payload: `some v` models a field present in the
object literal, `none` a field left out.  For the nullable fields
(`assignee`, `completedAt`) the inner `Option` is the stored value. -/
structure TaskUpdates where
  title : Option String := none
  description : Option String := none
  status : Option TaskStatus := none
  priority : Option TaskPriority := none
  assignee : Option (Option String) := none
  completedAt : Option (Option Nat) := none
deriving DecidableEq, Repr

/-- The full localStorage contents the service operates on. -/
structure State where
  projects : List Project
  invitations : List ProjectInvitation
  tasks : List Task
deriving DecidableEq, Repr

/-- The reading `project.settings?.allowMemberTaskEdit` (falsy when
`settings` is absent). -/
def allowEdit (settings : Option ProjectSettings) : Bool :=
  (settings.map (·.allowMemberTaskEdit)).getD false

/-- The reading `project.settings?.allowMemberTaskCreate`. -/
def allowCreate (settings : Option ProjectSettings) : Bool :=
  (settings.map (·.allowMemberTaskCreate)).getD false

/-- The reading `project.settings?.allowMemberInvite`. -/
def allowInvite (settings : Option ProjectSettings) : Bool :=
  (settings.map (·.allowMemberInvite)).getD false

/-- `DataService.getProject`: find the project by id, then return it only to
its owner or a member (`null` otherwise). -/
def getProject (s : State) (projectId userId : String) : Option Project :=
  match s.projects.find? (fun p => p.projectId == projectId) with
  | none => none
  | some p =>
    if p.ownerId != userId && !(p.members.contains userId) then none
    else some p

/-- Error outcomes of `DataService.createInvitation` (each a thrown
`Error` in the source). -/
inductive InviteError
  | projectNotFound
  | notOwner
  | duplicate
deriving DecidableEq, Repr

/-- `DataService.createInvitation`: requires the caller to see the project
and to be its owner; refuses when some invitation for the same
(projectId, inviteeEmail) still has status pending (no expiry test, no
membership test); otherwise appends a fresh pending invitation expiring
seven days from `now`. -/
def createInvitation (s : State) (now : Nat) (newId : String)
    (projectId inviterUserId inviteeEmail : String) :
    Except InviteError (State × ProjectInvitation) :=
  match getProject s projectId inviterUserId with
  | none => .error .projectNotFound
  | some project =>
    if project.ownerId != inviterUserId then .error .notOwner
    else if s.invitations.any (fun inv =>
        inv.projectId == projectId && inv.inviteeEmail == inviteeEmail &&
        inv.status == InvStatus.pending) then
      .error .duplicate
    else
      let inv : ProjectInvitation :=
        { invitationId := newId
          projectId := projectId
          inviterUserId := inviterUserId
          inviteeEmail := inviteeEmail
          status := InvStatus.pending
          createdAt := now
          expiresAt := now + sevenDaysMs }
      .ok ({ s with invitations := s.invitations ++ [inv] }, inv)

/-- `DataService.getInvitationsForEmail`: pending, unexpired invitations
addressed to `email` (`new Date(inv.expiresAt) > new Date()`). -/
def getInvitationsForEmail (s : State) (now : Nat) (email : String) :
    List ProjectInvitation :=
  s.invitations.filter (fun inv =>
    inv.inviteeEmail == email && inv.status == InvStatus.pending &&
    decide (now < inv.expiresAt))

/-- `DataService.acceptInvitation`: returns `false` when the invitation is
missing, not pending, or expired (`new Date(expiresAt) <= new Date()`);
otherwise first saves the invitation with status accepted, then — if the
project record exists and the user is not yet a member — appends the user
to its member list.  The boolean is the source's return value. -/
def acceptInvitation (s : State) (now : Nat) (invitationId userId : String) :
    State × Bool :=
  match s.invitations.find? (fun inv => inv.invitationId == invitationId) with
  | none => (s, false)
  | some inv =>
    if inv.status != InvStatus.pending || decide (inv.expiresAt ≤ now) then
      (s, false)
    else
      let s1 : State :=
        { s with invitations := s.invitations.map (fun i =>
            if i.invitationId == invitationId then
              { i with status := InvStatus.accepted }
            else i) }
      match s1.projects.find? (fun p => p.projectId == inv.projectId) with
      | none => (s1, true)
      | some p =>
        if p.members.contains userId then (s1, true)
        else
          ({ s1 with projects := s1.projects.map (fun q =>
              if q.projectId == inv.projectId then
                { q with members := q.members ++ [userId], updatedAt := now }
              else q) }, true)

/-- `DataService.rejectInvitation`: returns `false` when no invitation has
the id; otherwise sets its status to rejected unconditionally (no
pending/expiry/email check). -/
def rejectInvitation (s : State) (invitationId : String) : State × Bool :=
  match s.invitations.find? (fun inv => inv.invitationId == invitationId) with
  | none => (s, false)
  | some _ =>
    ({ s with invitations := s.invitations.map (fun i =>
        if i.invitationId == invitationId then
          { i with status := InvStatus.rejected }
        else i) }, true)

/-- Permission check inside `DataService.updateTask`:
`isOwner || (isAssignee && project.settings?.allowMemberTaskEdit)`. -/
def canEditTask (project : Project) (task : Task) (userId : String) : Bool :=
  project.ownerId == userId ||
    (task.assignee == some userId && allowEdit project.settings)

/-- Outcomes of `DataService.updateTask` (`null`, the two thrown errors, or
the updated state and task). -/
inductive UpdateTaskResult
  | taskNotFound
  | accessDenied
  | permissionDenied
  | ok (s : State) (t : Task)
deriving DecidableEq, Repr

/-- The object spread `{ ...task, ...updates, updatedAt: now }`. -/
def Task.applyUpdates (t : Task) (u : TaskUpdates) (now : Nat) : Task :=
  { t with
    title := u.title.getD t.title
    description := u.description.getD t.description
    status := u.status.getD t.status
    priority := u.priority.getD t.priority
    assignee := u.assignee.getD t.assignee
    completedAt := u.completedAt.getD t.completedAt
    updatedAt := now }

/-- `DataService.updateTask`: `null` when the task id is unknown; throws
when the caller cannot see the project, or fails `canEditTask`; otherwise
spreads the updates over the task and, when the payload status is
`completed` and the stored status was not, overwrites `completedAt` with
now. -/
def updateTask (s : State) (now : Nat) (taskId : String) (u : TaskUpdates)
    (userId : String) : UpdateTaskResult :=
  match s.tasks.find? (fun t => t.taskId == taskId) with
  | none => .taskNotFound
  | some task =>
    match getProject s task.projectId userId with
    | none => .accessDenied
    | some project =>
      if !canEditTask project task userId then .permissionDenied
      else
        let updated0 := task.applyUpdates u now
        let updated :=
          if u.status == some TaskStatus.completed &&
              task.status != TaskStatus.completed then
            { updated0 with completedAt := some now }
          else updated0
        .ok { s with tasks := s.tasks.map (fun t =>
            if t.taskId == taskId then updated else t) } updated

/-- `DataService.getTasksByProject`: the empty list when the caller cannot
see the project, else all of its tasks. -/
def getTasksByProject (s : State) (projectId userId : String) : List Task :=
  match getProject s projectId userId with
  | none => []
  | some _ => s.tasks.filter (fun t => t.projectId == projectId)

/-- Outcomes of `DataService.removeMember`: `false` when the caller cannot
see the project (or the raw lookup misses), the two thrown errors, or
`true` with the new state. -/
inductive RemoveMemberResult
  | noAccess
  | notOwnerError
  | ownerTargetError
  | missing
  | removed (s : State)
deriving DecidableEq, Repr

/-- `DataService.removeMember`: only the owner may remove; removing the
owner throws; otherwise filters the target out of the member list (a
no-op returning `true` when the target was not a member). -/
def removeMember (s : State) (now : Nat)
    (projectId memberUserId currentUserId : String) : RemoveMemberResult :=
  match getProject s projectId currentUserId with
  | none => .noAccess
  | some project =>
    if project.ownerId != currentUserId then .notOwnerError
    else if memberUserId == project.ownerId then .ownerTargetError
    else
      match s.projects.find? (fun p => p.projectId == projectId) with
      | none => .missing
      | some _ =>
        .removed { s with projects := s.projects.map (fun p =>
            if p.projectId == projectId then
              { p with
                members := p.members.filter (fun m => m != memberUserId)
                updatedAt := now }
            else p) }

end Client

namespace Server

/-- Row of the `users` table (the columns the modelled routes read). -/
structure UserRow where
  id : String
  name : String
  email : String
  isActive : Bool
deriving DecidableEq, Repr

/-- Row of the `projects` table (`settings` is a JSONB bag read with
`project.settings?.flag`). -/
structure ProjectRow where
  id : String
  title : String
  ownerId : String
  settings : Option ProjectSettings
deriving DecidableEq, Repr

/-- Row of the `project_members` join table. -/
structure MemberRow where
  projectId : String
  userId : String
deriving DecidableEq, Repr

/-- Row of the `invitations` table. -/
structure InvitationRow where
  id : String
  projectId : String
  inviterId : String
  inviteeEmail : String
  status : InvStatus
  createdAt : Nat
  expiresAt : Nat
deriving DecidableEq, Repr

/-- Row of the `tasks` table (typed columns used by the task routes). -/
structure TaskRow where
  id : String
  projectId : String
  title : String
  status : TaskStatus
  assigneeId : Option String
  createdAt : Nat
deriving DecidableEq, Repr

/-- The database state the routes operate on. -/
structure DB where
  users : List UserRow
  projects : List ProjectRow
  members : List MemberRow
  invitations : List InvitationRow
  tasks : List TaskRow
deriving DecidableEq, Repr

/-- Membership test: some `project_members` row joins (projectId, userId). -/
def isMemberRow (db : DB) (projectId userId : String) : Bool :=
  db.members.any (fun m => m.projectId == projectId && m.userId == userId)

/-- The reading `settings?.allowMemberTaskEdit` on a JSONB settings bag. -/
def allowEdit (settings : Option ProjectSettings) : Bool :=
  (settings.map (·.allowMemberTaskEdit)).getD false

/-- The reading `settings?.allowMemberInvite`. -/
def allowInvite (settings : Option ProjectSettings) : Bool :=
  (settings.map (·.allowMemberInvite)).getD false

/-- The JavaScript `Server.lowerStr emailCase()`, modelled per character. -/
def lowerStr (s : String) : String := ⟨s.data.map Char.toLower⟩

/-- Outcomes of `POST /invitations` (`backend/routes` invitation router). -/
inductive CreateInvResult
  | projectNotFound
  | forbidden
  | alreadyMemberConflict
  | duplicateConflict
  | created (db : DB) (inv : InvitationRow)
deriving DecidableEq, Repr

/-- `POST /invitations`: 404 when the project row is missing; 403 unless
`isOwner || (isMember && settings?.allowMemberInvite)`; 409 when the
(lower-cased) email already belongs to a member of the project, or a
pending invitation with `expires_at > NOW()` exists for the pair;
otherwise inserts a pending invitation expiring in seven days. -/
def createInvitation (db : DB) (now : Nat) (newId : String)
    (projectId email : String) (user : UserRow) : CreateInvResult :=
  match db.projects.find? (fun p => p.id == projectId) with
  | none => .projectNotFound
  | some p =>
    if !(p.ownerId == user.id ||
        (isMemberRow db projectId user.id && allowInvite p.settings)) then
      .forbidden
    else if db.members.any (fun m => m.projectId == projectId &&
        db.users.any (fun u => u.id == m.userId &&
          u.email == Server.lowerStr email)) then
      .alreadyMemberConflict
    else if db.invitations.any (fun i => i.projectId == projectId &&
        i.inviteeEmail == Server.lowerStr email && i.status == InvStatus.pending &&
        decide (now < i.expiresAt)) then
      .duplicateConflict
    else
      let inv : InvitationRow :=
        { id := newId
          projectId := projectId
          inviterId := user.id
          inviteeEmail := Server.lowerStr email
          status := InvStatus.pending
          createdAt := now
          expiresAt := now + sevenDaysMs }
      .created { db with invitations := db.invitations ++ [inv] } inv

/-- The `UPDATE invitations SET status = accepted WHERE id = $2`. -/
def markAccepted (invs : List InvitationRow) (invitationId : String) :
    List InvitationRow :=
  invs.map (fun i =>
    if i.id == invitationId then { i with status := InvStatus.accepted }
    else i)

/-- Outcomes of `POST /invitations/:id/accept`. -/
inductive AcceptResult
  | notFoundKind
  | emailMismatch
  | alreadyMember (db : DB)
  | joined (db : DB)
deriving DecidableEq, Repr

/-- `POST /invitations/:id/accept`: one 404 response
("Invitation not found, expired, or already processed") when no row joins
a project with `status = pending AND expires_at > NOW()`; 403 when the
invitee email differs from the authenticated user's; accepted-only update
when already a member; else a transaction inserting the membership row and
marking the invitation accepted. -/
def acceptInvitation (db : DB) (now : Nat) (invitationId : String)
    (user : UserRow) : AcceptResult :=
  match db.invitations.find? (fun i => i.id == invitationId &&
      i.status == InvStatus.pending && decide (now < i.expiresAt) &&
      db.projects.any (fun p => p.id == i.projectId)) with
  | none => .notFoundKind
  | some inv =>
    if inv.inviteeEmail != user.email then .emailMismatch
    else if isMemberRow db inv.projectId user.id then
      .alreadyMember
        { db with invitations := markAccepted db.invitations invitationId }
    else
      .joined { db with
        members := db.members ++ [⟨inv.projectId, user.id⟩]
        invitations := markAccepted db.invitations invitationId }

/-- Outcomes of `POST /invitations/:id/reject`. -/
inductive RejectResult
  | notFoundKind
  | ok (db : DB)
deriving DecidableEq, Repr

/-- `POST /invitations/:id/reject`: a single
`UPDATE ... WHERE id AND invitee_email AND status = pending` — 404 when no
row matches (no expiry check), else the matching pending row becomes
rejected. -/
def rejectInvitation (db : DB) (invitationId userEmail : String) :
    RejectResult :=
  if db.invitations.any (fun i => i.id == invitationId &&
      i.inviteeEmail == userEmail && i.status == InvStatus.pending) then
    .ok { db with invitations := db.invitations.map (fun i =>
        if i.id == invitationId && i.inviteeEmail == userEmail &&
            i.status == InvStatus.pending then
          { i with status := InvStatus.rejected }
        else i) }
  else .notFoundKind

/-- Outcomes of `GET /projects/:id`. -/
inductive ProjectViewResult
  | notFoundKind
  | ok (p : ProjectRow)
deriving DecidableEq, Repr

/-- `GET /projects/:id`: the query keeps the row only when
`p.id = $1 AND (p.owner_id = $2 OR pm.user_id = $2)`; an empty result is a
404 ("Project not found or access denied"). -/
def getProjectById (db : DB) (projectId userId : String) :
    ProjectViewResult :=
  match db.projects.find? (fun p => p.id == projectId &&
      (p.ownerId == userId || isMemberRow db projectId userId)) with
  | none => .notFoundKind
  | some p => .ok p

/-- Outcomes of `GET /tasks/project/:projectId`. -/
inductive ProjectTasksResult
  | forbidden
  | ok (tasks : List TaskRow)
deriving DecidableEq, Repr

/-- `GET /tasks/project/:projectId`: when the access query
(`p.id = $1 AND (p.owner_id = $2 OR pm.user_id = $2)`) is empty the route
answers 403 "Access denied to project"; otherwise it returns the
project's tasks. -/
def getProjectTasks (db : DB) (projectId userId : String) :
    ProjectTasksResult :=
  if db.projects.any (fun p => p.id == projectId &&
      (p.ownerId == userId || isMemberRow db projectId userId)) then
    .ok (db.tasks.filter (fun t => t.projectId == projectId))
  else .forbidden

/-- Permission check of `PUT /tasks/:id`:
`isOwner || isAssignee || (isMember && task.settings?.allowMemberTaskEdit)`. -/
def canEditTask (ownerId : String) (settings : Option ProjectSettings)
    (assigneeId : Option String) (isMember : Bool) (userId : String) : Bool :=
  ownerId == userId || assigneeId == some userId ||
    (isMember && allowEdit settings)

/-- JSON-ish values carried by a request body or a task row;
`json v` stands for the string `JSON.stringify(v)`. -/
inductive JVal
  | str (s : String)
  | num (n : Int)
  | boolean (b : Bool)
  | null
  | json (v : JVal)
deriving DecidableEq, Repr

/-- JavaScript truthiness of a body value. -/
def JVal.truthy : JVal → Bool
  | .str s => s != ""
  | .num n => n != 0
  | .boolean b => b
  | .null => false
  | .json _ => true

/-- The regex replacement `field.replace(/_([a-z])/g, upper)` on a
character list. -/
def camelChars : List Char → List Char
  | [] => []
  | '_' :: c :: rest =>
    if c.isLower then c.toUpper :: camelChars rest
    else '_' :: camelChars (c :: rest)
  | c :: rest => c :: camelChars rest

/-- Snake-case to camel-case, as computed in the task-update handler. -/
def snakeToCamel (s : String) : String := ⟨camelChars s.data⟩

/-- The fixed allowlist iterated by `PUT /tasks/:id`. -/
def allowedFields : List String :=
  ["title", "description", "status", "priority", "assignee_id", "due_date",
   "estimate", "milestone_id", "time_spent", "styling"]

/-- A request body: present keys with their values. -/
abbrev Body := List (String × JVal)

/-- The access `req.body[k]` (`none` models `undefined`). -/
def bodyGet (body : Body) (k : String) : Option JVal :=
  (body.find? (fun kv => kv.fst == k)).map (·.snd)

/-- The handler's per-field read:
`req.body[camelField] !== undefined ? req.body[camelField] : req.body[snakeField]`. -/
def fieldValue (body : Body) (f : String) : Option JVal :=
  match bodyGet body (snakeToCamel f) with
  | some v => some v
  | none => bodyGet body f

/-- The handler's value adjustments: empty-string assignee becomes null,
styling gets `JSON.stringify`-ed (null for falsy values). -/
def transformValue (f : String) (v : JVal) : JVal :=
  if f = "assignee_id" then (if v = JVal.str "" then JVal.null else v)
  else if f = "styling" then
    (if v.truthy then JVal.json v else JVal.null)
  else v

/-- The `updateFields`/`values` list built by the loop over
`allowedFields`, plus the `completed_at = NOW()` push when the body sets
status completed and the stored status was not completed. -/
def buildUpdateFields (body : Body) (storedStatus : TaskStatus) (now : Nat) :
    List (String × JVal) :=
  let base := allowedFields.filterMap (fun f =>
    (fieldValue body f).map (fun v => (f, transformValue f v)))
  if bodyGet body "status" = some (JVal.str "completed") ∧
      storedStatus ≠ TaskStatus.completed then
    base ++ [("completed_at", JVal.num (Int.ofNat now))]
  else base

/-- Application of the generated `SET` clause to a row (a column
valuation). -/
def applySet (row : String → JVal) (sets : List (String × JVal)) :
    String → JVal :=
  fun c =>
    match sets.find? (fun kv => kv.fst = c) with
    | some kv => kv.snd
    | none => row c

/-- Result of the dynamic update of `PUT /tasks/:id`: a 400 when no field
was collected, else the updated row. -/
inductive RunUpdateResult
  | badRequest
  | ok (row : String → JVal)

/-- The `UPDATE tasks SET ..., updated_at = NOW() WHERE id = ...` built and
run by `PUT /tasks/:id` on the task's row, after the permission check. -/
def runTaskUpdate (row : String → JVal) (body : Body)
    (storedStatus : TaskStatus) (now : Nat) : RunUpdateResult :=
  let sets := buildUpdateFields body storedStatus now
  if sets.isEmpty then .badRequest
  else .ok (fun c =>
    if c = "updated_at" then JVal.num (Int.ofNat now) else applySet row sets c)

/-- Row reached after the update: the stored row when the request was
rejected with a 400 (nothing ran), else the updated row. -/
def RunUpdateResult.rowOr (fallback : String → JVal) :
    RunUpdateResult → (String → JVal)
  | .badRequest => fallback
  | .ok r => r

/-- Outcomes of `DELETE /projects/:id/members/:userId`. -/
inductive RemoveMemberResult
  | forbidden
  | ownerTargetError
  | memberNotFound
  | ok (db : DB)
deriving DecidableEq, Repr

/-- `DELETE /projects/:id/members/:userId`: 403 unless the caller owns the
project; 400 when the target equals the caller (the owner); DELETE of the
membership rows, answering 404 when no row was deleted. -/
def removeMember (db : DB) (projectId targetUserId : String)
    (user : UserRow) : RemoveMemberResult :=
  if !(db.projects.any (fun p => p.id == projectId &&
      p.ownerId == user.id)) then .forbidden
  else if targetUserId == user.id then .ownerTargetError
  else if isMemberRow db projectId targetUserId then
    .ok { db with members := db.members.filter (fun m =>
        !(m.projectId == projectId && m.userId == targetUserId)) }
  else .memberNotFound

end Server

/-- Predicate written from the spec's own words, for comparison with the
two implementations: `canEditTask(actor, project, task) =
isOwner ∨ (task.assigneeId == actor.id ∧ project.settings.allowMemberTaskEdit)`. -/
def specCanEditTask (isOwner assigneeIsActor allowMemberTaskEdit : Bool) :
    Bool :=
  isOwner || (assigneeIsActor && allowMemberTaskEdit)

namespace Fixture

/-- Settings with every member permission granted. -/
def settingsAll : ProjectSettings :=
  { allowMemberTaskEdit := true
    allowMemberTaskCreate := true
    allowMemberInvite := true }

/-- Settings granting member invites but not member task edits. -/
def settingsInviteOnly : ProjectSettings :=
  { allowMemberTaskEdit := false
    allowMemberTaskCreate := false
    allowMemberInvite := true }

/-- A pending client invitation to project p1 for a@x.com, expiring at 100. -/
def invPending : Client.ProjectInvitation :=
  { invitationId := "i1"
    projectId := "p1"
    inviterUserId := "o"
    inviteeEmail := "a@x.com"
    status := InvStatus.pending
    createdAt := 0
    expiresAt := 100 }

/-- The same invitation already accepted. -/
def invDone : Client.ProjectInvitation :=
  { invPending with status := InvStatus.accepted }

/-- Client project p1 owned by o with members m and a. -/
def projP1 : Client.Project :=
  { projectId := "p1"
    title := "Launch"
    description := ""
    ownerId := "o"
    members := ["m", "a"]
    settings := some settingsAll
    createdAt := 0
    updatedAt := 0 }

/-- The same project with member-invite allowed but task edits owner-only. -/
def projInviteOnly : Client.Project :=
  { projP1 with settings := some settingsInviteOnly }

/-- A pending task of p1 assigned to a. -/
def taskT1 : Client.Task :=
  { taskId := "t1"
    projectId := "p1"
    title := "T"
    description := ""
    status := TaskStatus.pending
    priority := TaskPriority.medium
    assignee := some "a"
    completedAt := none
    createdAt := 0
    updatedAt := 0 }

/-- The task already completed, with completedAt recorded at 5. -/
def taskDone : Client.Task :=
  { taskT1 with status := TaskStatus.completed, completedAt := some 5 }

/-- Server-side user a@x.com. -/
def userA : Server.UserRow :=
  { id := "ua", name := "A", email := "a@x.com", isActive := true }

/-- Server-side owner of p1. -/
def userO : Server.UserRow :=
  { id := "o", name := "O", email := "o@x.com", isActive := true }

/-- Server-side project row p1 owned by o. -/
def projRowP1 : Server.ProjectRow :=
  { id := "p1", title := "Launch", ownerId := "o", settings := some settingsAll }

/-- Server-side invitation for a@x.com on p1, pending but expired at 10. -/
def invRowExpired : Server.InvitationRow :=
  { id := "i1"
    projectId := "p1"
    inviterId := "o"
    inviteeEmail := "a@x.com"
    status := InvStatus.pending
    createdAt := 0
    expiresAt := 10 }

/-- Server-side invitation i9 for a@x.com on p1, pending and unexpired. -/
def invRowLive : Server.InvitationRow :=
  { invRowExpired with id := "i9", expiresAt := 100 }

/-- A server DB holding p1 and the expired pending invitation. -/
def dbExpired : Server.DB :=
  { users := [userA]
    projects := [projRowP1]
    members := []
    invitations := [invRowExpired]
    tasks := [] }

/-- A server DB holding p1 and the live pending invitation. -/
def dbLive : Server.DB :=
  { users := [userA]
    projects := [projRowP1]
    members := []
    invitations := [invRowLive]
    tasks := [] }

/-- A column valuation naming each column after itself. -/
def rowSelf : String → Server.JVal := fun c => Server.JVal.str c

/-- A request body mixing allowlisted and non-allowlisted task fields,
including a caller-supplied completed_at. -/
def bodyMixed : Server.Body :=
  [("tags", Server.JVal.json Server.JVal.null),
   ("successMetrics", Server.JVal.null),
   ("project_id", Server.JVal.str "p2"),
   ("completed_at", Server.JVal.num 7),
   ("title", Server.JVal.str "new")]

end Fixture

example : Server.snakeToCamel "assignee_id" = "assigneeId" := by decide
example : Server.snakeToCamel "due_date" = "dueDate" := by decide
example : Server.snakeToCamel "time_spent" = "timeSpent" := by decide
example : Server.snakeToCamel "styling" = "styling" := by decide

/-- C1: the client-side `acceptInvitation` is not atomic across the two
entities.  On a store holding a pending, unexpired invitation whose
project record is absent, it commits the invitation's status to accepted,
adds no membership anywhere (there is no project to add to), and still
reports success — the invitation is marked accepted without the accepting
user in any member set. -/
theorem C1_client_accept_commits_invitation_without_membership :
    Client.acceptInvitation
        { projects := [], invitations := [Fixture.invPending], tasks := [] }
        5 "i1" "u1" =
      ({ projects := []
         invitations := [{ Fixture.invPending with status := InvStatus.accepted }]
         tasks := [] }, true) := by
  decide

/-- C2 counterexample: the server-side task-edit check of `PUT /tasks/:id`
is not the claimed predicate.  With `allowMemberTaskEdit = false`, the
assignee `a` (a member, not the owner `o`) passes the server check, while
the claimed predicate `isOwner ∨ (isAssignee ∧ allowMemberTaskEdit)`
denies; with `allowMemberTaskEdit = true` a member who is not the
assignee also passes the server check. -/
theorem C2_counterexample :
    Server.canEditTask "o"
        (some { allowMemberTaskEdit := false
                allowMemberTaskCreate := false
                allowMemberInvite := false })
        (some "a") true "a" = true ∧
    specCanEditTask false true false = false ∧
    Server.canEditTask "o" (some Fixture.settingsAll) (some "a") true "m" = true ∧
    specCanEditTask false false true = false := by
  decide

/-- C3 counterexample: failures are not reported each with a distinct
kind.  The server's accept route answers the expired invitation `i1` with
the very same kind (the single 404 `notFoundKind`) as a missing
invitation id; and the client-side `acceptInvitation` succeeds for the
acting user `intruder` without any email comparison at all. -/
theorem C3_counterexample :
    Server.acceptInvitation Fixture.dbExpired 50 "i1" Fixture.userA =
      Server.AcceptResult.notFoundKind ∧
    Server.acceptInvitation Fixture.dbExpired 50 "nope" Fixture.userA =
      Server.AcceptResult.notFoundKind ∧
    (Client.acceptInvitation
        { projects := [Fixture.projP1], invitations := [Fixture.invPending],
          tasks := [] } 5 "i1" "intruder").2 = true := by
  decide

/-- C4 counterexample: the client-side `rejectInvitation` performs none of
the accept-style validity checks — on an invitation whose status is
already accepted it still flips the status to rejected and returns
success. -/
theorem C4_counterexample :
    Client.rejectInvitation
        { projects := [], invitations := [Fixture.invDone], tasks := [] }
        "i1" =
      ({ projects := []
         invitations := [{ Fixture.invDone with status := InvStatus.rejected }]
         tasks := [] }, true) ∧
    Fixture.invDone.status = InvStatus.accepted := by
  decide

/-- C5 counterexample: in the client-side `createInvitation` a pending
invitation whose `expiresAt` (100) has long passed (now = 1000) still
blocks creating a new invitation for the same (projectId, inviteeEmail)
pair — the duplicate check never consults `expiresAt`. -/
theorem C5_counterexample :
    Client.createInvitation
        { projects := [Fixture.projP1], invitations := [Fixture.invPending],
          tasks := [] }
        1000 "new" "p1" "o" "a@x.com" =
      Except.error Client.InviteError.duplicate ∧
    Fixture.invPending.expiresAt = 100 ∧
    Fixture.invPending.status = InvStatus.pending :=
  ⟨rfl, rfl, rfl⟩

/-- C6 counterexample: in the client-side service a member `m` of a
project whose settings set `allowMemberInvite = true` cannot create an
invitation — `createInvitation` rejects every non-owner. -/
theorem C6_counterexample :
    Client.createInvitation
        { projects := [Fixture.projInviteOnly], invitations := [], tasks := [] }
        5 "n" "p1" "m" "b@x.com" =
      Except.error Client.InviteError.notOwner ∧
    Fixture.projInviteOnly.members.contains "m" = true ∧
    Client.allowInvite Fixture.projInviteOnly.settings = true :=
  ⟨rfl, rfl, rfl⟩

/-- C7 counterexample: the server's task-list read answers a non-member
`u2` of the existing project `p1` with the 403 `forbidden` result, not a
not-found result. -/
theorem C7_counterexample :
    Server.getProjectTasks
        { users := [], projects := [Fixture.projRowP1], members := [],
          invitations := [], tasks := [] }
        "p1" "u2" = Server.ProjectTasksResult.forbidden := by
  decide

/-- C8 counterexample: the client-side `updateTask` spreads the caller's
partial task over the stored one, so an update payload carrying only
`completedAt` changes the `completedAt` of an already-completed task
(from 5 to 999) while its status stays completed. -/
theorem C8_counterexample :
    Client.updateTask
        { projects := [Fixture.projP1], invitations := [],
          tasks := [Fixture.taskDone] }
        100 "t1" { completedAt := some (some 999) } "o" =
      Client.UpdateTaskResult.ok
        { projects := [Fixture.projP1]
          invitations := []
          tasks := [{ Fixture.taskDone with
                        completedAt := some 999, updatedAt := 100 }] }
        { Fixture.taskDone with completedAt := some 999, updatedAt := 100 } ∧
    Fixture.taskDone.status = TaskStatus.completed ∧
    Fixture.taskDone.completedAt = some 5 := by
  decide

/-- C9 counterexample: the client-side `removeMember` called by the owner
`o` on the non-member `x` answers with success (`removed`, the source's
`true`), not with a not-found result; the member set is untouched (only
`updatedAt` moves). -/
theorem C9_counterexample :
    Client.removeMember
        { projects := [Fixture.projP1], invitations := [], tasks := [] }
        9 "p1" "x" "o" =
      Client.RemoveMemberResult.removed
        { projects := [{ Fixture.projP1 with updatedAt := 9 }]
          invitations := []
          tasks := [] } ∧
    Fixture.projP1.members.contains "x" = false := by
  decide

/-- Helper: the reject-route UPDATE touches only pending rows, so the
sublist of accepted invitations is unchanged. -/
theorem filter_accepted_map_reject (l : List Server.InvitationRow)
    (id email : String) :
    (l.map (fun i => if i.id == id && i.inviteeEmail == email &&
          i.status == InvStatus.pending
        then { i with status := InvStatus.rejected } else i)).filter
      (fun i => i.status == InvStatus.accepted) =
    l.filter (fun i => i.status == InvStatus.accepted) := by
  induction l with
  | nil => rfl
  | cons a t ih =>
    simp only [List.map_cons]
    by_cases hc : (a.id == id && a.inviteeEmail == email &&
        a.status == InvStatus.pending) = true
    · have hpend : a.status = InvStatus.pending := by
        simp only [Bool.and_eq_true, beq_iff_eq] at hc
        exact hc.2
      rw [if_pos hc]
      rw [List.filter_cons_of_neg (by simp),
        List.filter_cons_of_neg (by simp [hpend])]
      exact ih
    · rw [if_neg hc, List.filter_cons, List.filter_cons, ih]

/-- Helper: every column collected by the task-update loop is an
allowlisted field or the internally pushed completed_at. -/
theorem mem_buildUpdateFields (body : Server.Body) (st : TaskStatus)
    (now : Nat) (kv : String × Server.JVal)
    (h : kv ∈ Server.buildUpdateFields body st now) :
    kv.1 ∈ Server.allowedFields ∨ kv.1 = "completed_at" := by
  simp only [Server.buildUpdateFields] at h
  have hbase : ∀ kv2 : String × Server.JVal,
      kv2 ∈ Server.allowedFields.filterMap (fun f =>
        (Server.fieldValue body f).map
          (fun v => (f, Server.transformValue f v))) →
      kv2.1 ∈ Server.allowedFields := by
    intro kv2 h2
    obtain ⟨f, hf, hmap⟩ := List.mem_filterMap.mp h2
    cases hv : Server.fieldValue body f with
    | none => rw [hv] at hmap; exact absurd hmap (by simp)
    | some v =>
      rw [hv] at hmap
      simp only [Option.map_some', Option.some.injEq] at hmap
      rw [← hmap]
      exact hf
  by_cases hc : (Server.bodyGet body "status" =
      some (Server.JVal.str "completed") ∧ st ≠ TaskStatus.completed)
  · rw [if_pos hc] at h
    rcases List.mem_append.mp h with h1 | h1
    · exact Or.inl (hbase kv h1)
    · right
      simp only [List.mem_singleton] at h1
      rw [h1]
  · rw [if_neg hc] at h
    exact Or.inl (hbase kv h)

/-- Helper: a column outside the allowlist (and distinct from
completed_at) is never assigned by the generated SET clause. -/
theorem buildUpdateFields_find_eq_none (body : Server.Body)
    (st : TaskStatus) (now : Nat) (c : String)
    (hc : c ∉ Server.allowedFields) (h2 : c ≠ "completed_at") :
    (Server.buildUpdateFields body st now).find?
      (fun kv => kv.fst = c) = none := by
  rw [List.find?_eq_none]
  intro kv hkv hfalse
  simp only [decide_eq_true_eq] at hfalse
  rcases mem_buildUpdateFields body st now kv hkv with h3 | h3
  · rw [hfalse] at h3; exact hc h3
  · rw [hfalse] at h3; exact h2 h3

/-- C2 amended: the claimed predicate
`isOwner ∨ (isAssignee ∧ allowMemberTaskEdit)` is exactly the client-side
check (DataService.updateTask denies edit precisely when it is false,
once the task is found and the project visible); the server-side
`PUT /tasks/:id` uses the strictly weaker
`isOwner ∨ isAssignee ∨ (isMember ∧ allowMemberTaskEdit)`. -/
theorem C2_amended_edit_permission_predicates :
    (∀ (s : Client.State) (now : Nat) (taskId : String)
        (u : Client.TaskUpdates) (userId : String) (task : Client.Task)
        (project : Client.Project),
      s.tasks.find? (fun t => t.taskId == taskId) = some task →
      Client.getProject s task.projectId userId = some project →
      (Client.updateTask s now taskId u userId =
          Client.UpdateTaskResult.permissionDenied ↔
        specCanEditTask (project.ownerId == userId)
          (task.assignee == some userId)
          (Client.allowEdit project.settings) = false)) ∧
    (∀ (ownerId : String) (settings : Option ProjectSettings)
        (assigneeId : Option String) (isMember : Bool) (userId : String),
      (specCanEditTask (ownerId == userId) (assigneeId == some userId)
          (Server.allowEdit settings) = true →
        Server.canEditTask ownerId settings assigneeId isMember userId = true) ∧
      (Server.canEditTask ownerId settings assigneeId isMember userId = true ↔
        ownerId = userId ∨ assigneeId = some userId ∨
          (isMember = true ∧ Server.allowEdit settings = true))) := by
  constructor
  · intro s now taskId u userId task project hfind hproj
    have hpred : Client.canEditTask project task userId =
        specCanEditTask (project.ownerId == userId)
          (task.assignee == some userId)
          (Client.allowEdit project.settings) := rfl
    simp only [Client.updateTask, hfind, hproj]
    cases h : Client.canEditTask project task userId with
    | true => simp [h, ← hpred]
    | false => simp [h, ← hpred]
  · intro ownerId settings assigneeId isMember userId
    constructor
    · intro h
      simp only [specCanEditTask, Bool.or_eq_true, Bool.and_eq_true] at h
      simp only [Server.canEditTask, Bool.or_eq_true, Bool.and_eq_true]
      tauto
    · simp only [Server.canEditTask, Bool.or_eq_true, Bool.and_eq_true,
        beq_iff_eq]
      tauto

/-- C2 amended, witness: member m (not assignee, allowMemberTaskEdit on) is
denied by the client service; assignee a passes the server check. -/
theorem C2_amended_edit_permission_predicates_witness :
    Client.updateTask
        { projects := [Fixture.projP1], invitations := [],
          tasks := [Fixture.taskT1] } 7 "t1" {} "m" =
      Client.UpdateTaskResult.permissionDenied ∧
    Server.canEditTask "o" (some Fixture.settingsAll) (some "a") true "a" =
      true :=
  ⟨(C2_amended_edit_permission_predicates.1
      { projects := [Fixture.projP1], invitations := [],
        tasks := [Fixture.taskT1] } 7 "t1" {} "m" Fixture.taskT1
      Fixture.projP1 rfl rfl).mpr (by decide),
   (C2_amended_edit_permission_predicates.2 "o" (some Fixture.settingsAll)
      (some "a") true "a").1 (by decide)⟩

/-- C3 amended: accept fails for missing, expired and already-processed
invitations and (server-side) for a mismatched email, succeeding only when
every check passes — but the server reports missing, expired and
already-processed through the single 404 kind (only the email mismatch is
distinct), and the client-side service reports every failure as a bare
`false`, checks expiry non-strictly (`now ≥ expiresAt` fails) and never
compares emails.  Conjuncts: (1) the server 404 kind is answered exactly
when no invitation is simultaneously present, pending, unexpired and
attached to an existing project; (2) a success (joined or
already-member) implies an invitation with matching id, pending status,
unexpired deadline and matching email; (3) the client accept succeeds
exactly when the invitation found by id is pending and unexpired. -/
theorem C3_amended_accept_failure_reporting :
    (∀ (db : Server.DB) (now : Nat) (id : String) (user : Server.UserRow),
      (Server.acceptInvitation db now id user =
          Server.AcceptResult.notFoundKind ↔
        ∀ i ∈ db.invitations, ¬(i.id = id ∧ i.status = InvStatus.pending ∧
          now < i.expiresAt ∧ ∃ p ∈ db.projects, p.id = i.projectId))) ∧
    (∀ (db : Server.DB) (now : Nat) (id : String) (user : Server.UserRow)
        (db2 : Server.DB),
      (Server.acceptInvitation db now id user =
          Server.AcceptResult.alreadyMember db2 ∨
       Server.acceptInvitation db now id user =
          Server.AcceptResult.joined db2) →
        (db.invitations.any (fun i => i.id == id &&
          i.status == InvStatus.pending && decide (now < i.expiresAt) &&
          i.inviteeEmail == user.email)) = true) ∧
    (∀ (s : Client.State) (now : Nat) (id uid : String),
      ((Client.acceptInvitation s now id uid).2 = true ↔
        ∃ inv, s.invitations.find? (fun i => i.invitationId == id) = some inv ∧
          inv.status = InvStatus.pending ∧ now < inv.expiresAt)) := by
  refine ⟨?_, ?_, ?_⟩
  · intro db now id user
    cases h : db.invitations.find? (fun i => i.id == id &&
        i.status == InvStatus.pending && decide (now < i.expiresAt) &&
        db.projects.any (fun p => p.id == i.projectId)) with
    | none =>
      have hall := List.find?_eq_none.mp h
      simp only [Server.acceptInvitation, h]
      constructor
      · intro _ i hi hcond
        obtain ⟨h1, h2, h3, p, hp, hpid⟩ := hcond
        refine hall i hi ?_
        simp only [Bool.and_eq_true, beq_iff_eq, decide_eq_true_eq,
          List.any_eq_true]
        exact ⟨⟨⟨h1, h2⟩, h3⟩, p, hp, hpid⟩
      · intro _; trivial
    | some inv =>
      have hmem := List.mem_of_find?_eq_some h
      have hp := List.find?_some h
      simp only [Bool.and_eq_true, beq_iff_eq, decide_eq_true_eq,
        List.any_eq_true] at hp
      obtain ⟨⟨⟨hid, hst⟩, hexp⟩, p, hpmem, hpid⟩ := hp
      simp only [Server.acceptInvitation, h]
      constructor
      · intro heq
        exfalso
        split at heq <;> (try split at heq) <;> simp_all
      · intro hall
        exact absurd ⟨hid, hst, hexp, p, hpmem, hpid⟩ (hall inv hmem)
  · intro db now id user db2 hcase
    cases h : db.invitations.find? (fun i => i.id == id &&
        i.status == InvStatus.pending && decide (now < i.expiresAt) &&
        db.projects.any (fun p => p.id == i.projectId)) with
    | none =>
      simp only [Server.acceptInvitation, h] at hcase
      rcases hcase with h1 | h1 <;> exact absurd h1 (by simp)
    | some inv =>
      have hmem := List.mem_of_find?_eq_some h
      have hp := List.find?_some h
      simp only [Bool.and_eq_true, beq_iff_eq, decide_eq_true_eq,
        List.any_eq_true] at hp
      obtain ⟨⟨⟨hid, hst⟩, hexp⟩, _, _, _⟩ := hp
      by_cases hem : inv.inviteeEmail = user.email
      · rw [List.any_eq_true]
        refine ⟨inv, hmem, ?_⟩
        simp only [Bool.and_eq_true, beq_iff_eq, decide_eq_true_eq]
        exact ⟨⟨⟨hid, hst⟩, hexp⟩, hem⟩
      · exfalso
        simp only [Server.acceptInvitation, h] at hcase
        rw [if_pos (by simp [bne_iff_ne, hem])] at hcase
        rcases hcase with h1 | h1 <;> exact absurd h1 (by simp)
  · intro s now id uid
    cases h : s.invitations.find? (fun i => i.invitationId == id) with
    | none =>
      simp only [Client.acceptInvitation, h]
      simp
    | some inv =>
      simp only [Client.acceptInvitation, h]
      by_cases hb : (inv.status != InvStatus.pending ||
          decide (inv.expiresAt ≤ now)) = true
      · simp only [hb, if_true]
        simp only [Bool.or_eq_true, bne_iff_ne, decide_eq_true_eq] at hb
        constructor
        · intro hfalse; exact absurd hfalse (by simp)
        · rintro ⟨inv2, heq, hst, hexp⟩
          cases Option.some.inj heq
          rcases hb with h1 | h1
          · exact absurd hst h1
          · omega
      · simp only [Bool.not_eq_true] at hb
        simp only [hb, Bool.false_eq_true, if_false]
        have hv : inv.status = InvStatus.pending ∧ now < inv.expiresAt := by
          simp only [Bool.or_eq_false_iff, bne_eq_false_iff_eq,
            decide_eq_false_iff_not] at hb
          exact ⟨hb.1, by omega⟩
        constructor
        · intro _
          exact ⟨inv, rfl, hv.1, hv.2⟩
        · intro _
          split <;> (try split) <;> rfl

/-- C3 amended, witness: the expired-invitation store answers the 404 kind
for a missing id; a live invitation succeeds for the acceptance path; the
client accept succeeds on the pending unexpired invitation with no email
around. -/
theorem C3_amended_accept_failure_reporting_witness :
    Server.acceptInvitation Fixture.dbExpired 50 "zz" Fixture.userA =
      Server.AcceptResult.notFoundKind ∧
    (Fixture.dbLive.invitations.any (fun i => i.id == "i9" &&
      i.status == InvStatus.pending && decide ((5 : Nat) < i.expiresAt) &&
      i.inviteeEmail == Fixture.userA.email)) = true ∧
    (Client.acceptInvitation
        { projects := [], invitations := [Fixture.invPending], tasks := [] }
        5 "i1" "u9").2 = true :=
  ⟨(C3_amended_accept_failure_reporting.1 Fixture.dbExpired 50 "zz"
      Fixture.userA).mpr (by decide),
   C3_amended_accept_failure_reporting.2.1 Fixture.dbLive 5 "i9"
     Fixture.userA
     { users := [Fixture.userA]
       projects := [Fixture.projRowP1]
       members := [{ projectId := "p1", userId := "ua" }]
       invitations := [{ Fixture.invRowLive with status := InvStatus.accepted }]
       tasks := [] }
     (Or.inr (by decide)),
   (C3_amended_accept_failure_reporting.2.2
      { projects := [], invitations := [Fixture.invPending], tasks := [] }
      5 "i1" "u9").mpr ⟨Fixture.invPending, rfl, rfl, by decide⟩⟩

/-- C4 amended: both implementations leave membership (and projects)
untouched, and the server rejects only a pending invitation whose
inviteeEmail matches the acting user (404 `notFoundKind` otherwise), never
turning an accepted invitation into a rejected one — but the server skips
the expiry check (a pending invitation past its `expiresAt` can still be
rejected), and the client-side reject checks nothing beyond existence, so
it flips even an already-accepted invitation (the counterexample). -/
theorem C4_amended_reject_checks :
    (∀ (db : Server.DB) (id email : String),
      (Server.rejectInvitation db id email =
          Server.RejectResult.notFoundKind ↔
        ∀ i ∈ db.invitations, ¬(i.id = id ∧ i.inviteeEmail = email ∧
          i.status = InvStatus.pending)) ∧
      (∀ db2, Server.rejectInvitation db id email =
          Server.RejectResult.ok db2 →
        db2.members = db.members ∧ db2.projects = db.projects ∧
        db2.invitations.filter (fun i => i.status == InvStatus.accepted) =
          db.invitations.filter (fun i => i.status == InvStatus.accepted))) ∧
    (∀ (s : Client.State) (id : String),
      (Client.rejectInvitation s id).1.projects = s.projects ∧
      (Client.rejectInvitation s id).1.tasks = s.tasks ∧
      ((Client.rejectInvitation s id).2 = true ↔
        ∃ i ∈ s.invitations, i.invitationId = id)) := by
  constructor
  · intro db id email
    constructor
    · by_cases hb : (db.invitations.any (fun i => i.id == id &&
          i.inviteeEmail == email && i.status == InvStatus.pending)) = true
      · simp only [Server.rejectInvitation, hb, if_true]
        have hb2 := hb
        simp only [List.any_eq_true, Bool.and_eq_true, beq_iff_eq] at hb2
        obtain ⟨i, hi, ⟨h1, h2⟩, h3⟩ := hb2
        constructor
        · intro hfalse; exact absurd hfalse (by simp)
        · intro hall; exact absurd ⟨h1, h2, h3⟩ (hall i hi)
      · simp only [Bool.not_eq_true] at hb
        simp only [Server.rejectInvitation, hb, Bool.false_eq_true, if_false]
        simp only [List.any_eq_false] at hb
        constructor
        · intro _ i hi hcond
          obtain ⟨h1, h2, h3⟩ := hcond
          exact hb i hi (by simp [h1, h2, h3])
        · intro _; trivial
    · intro db2 heq
      by_cases hb : (db.invitations.any (fun i => i.id == id &&
          i.inviteeEmail == email && i.status == InvStatus.pending)) = true
      · simp only [Server.rejectInvitation, hb, if_true] at heq
        cases heq
        exact ⟨rfl, rfl, filter_accepted_map_reject db.invitations id email⟩
      · simp only [Bool.not_eq_true] at hb
        simp only [Server.rejectInvitation, hb, Bool.false_eq_true,
          if_false] at heq
        exact absurd heq (by simp)
  · intro s id
    cases h : s.invitations.find? (fun i => i.invitationId == id) with
    | none =>
      have hall := List.find?_eq_none.mp h
      refine ⟨by simp [Client.rejectInvitation, h],
        by simp [Client.rejectInvitation, h], ?_⟩
      simp only [Client.rejectInvitation, h]
      constructor
      · intro hfalse; exact absurd hfalse (by simp)
      · rintro ⟨i, hi, hid⟩
        exact absurd (by simp [hid]) (hall i hi)
    | some inv =>
      have hmem := List.mem_of_find?_eq_some h
      have hpred := List.find?_some h
      simp only [beq_iff_eq] at hpred
      refine ⟨by simp [Client.rejectInvitation, h],
        by simp [Client.rejectInvitation, h], ?_⟩
      simp only [Client.rejectInvitation, h]
      constructor
      · intro _; exact ⟨inv, hmem, hpred⟩
      · intro _; trivial

/-- C4 amended, witness: missing id answers 404; rejecting the live
pending invitation leaves the member rows untouched; the client reject
succeeds whenever the id exists. -/
theorem C4_amended_reject_checks_witness :
    Server.rejectInvitation Fixture.dbExpired "zz" "a@x.com" =
      Server.RejectResult.notFoundKind ∧
    ({ Fixture.dbLive with
        invitations :=
          [{ Fixture.invRowLive with status := InvStatus.rejected }] }
      : Server.DB).members = Fixture.dbLive.members ∧
    (Client.rejectInvitation
        { projects := [], invitations := [Fixture.invPending], tasks := [] }
        "i1").2 = true :=
  ⟨((C4_amended_reject_checks.1 Fixture.dbExpired "zz" "a@x.com").1).mpr
      (by decide),
   ((C4_amended_reject_checks.1 Fixture.dbLive "i9" "a@x.com").2
      { Fixture.dbLive with
        invitations :=
          [{ Fixture.invRowLive with status := InvStatus.rejected }] }
      (by decide)).1,
   ((C4_amended_reject_checks.2
      { projects := [], invitations := [Fixture.invPending], tasks := [] }
      "i1").2.2).mpr ⟨Fixture.invPending, by decide, rfl⟩⟩

/-- C5 amended: on the server the claim holds as stated — given a visible
project and invite permission, creation answers 409 exactly when the
(lower-cased) email already belongs to a current member or a pending
invitation with `expires_at > now` exists for the pair, so an expired
pending invitation does not block.  The client-side duplicate check,
however, ignores `expiresAt` (an expired pending invitation still blocks,
the counterexample) and never tests membership: given owner access, the
client fails with `duplicate` exactly when some pending invitation for the
pair exists, expired or not. -/
theorem C5_amended_duplicate_invitation_conflict :
    (∀ (db : Server.DB) (now : Nat) (newId pid email : String)
        (user : Server.UserRow) (p : Server.ProjectRow),
      db.projects.find? (fun q => q.id == pid) = some p →
      (p.ownerId = user.id ∨ (Server.isMemberRow db pid user.id = true ∧
          Server.allowInvite p.settings = true)) →
      ((Server.createInvitation db now newId pid email user =
          Server.CreateInvResult.alreadyMemberConflict ∨
        Server.createInvitation db now newId pid email user =
          Server.CreateInvResult.duplicateConflict) ↔
        ((∃ m ∈ db.members, m.projectId = pid ∧ ∃ u ∈ db.users,
            u.id = m.userId ∧ u.email = Server.lowerStr email) ∨
         (∃ i ∈ db.invitations, i.projectId = pid ∧
            i.inviteeEmail = Server.lowerStr email ∧ i.status = InvStatus.pending ∧
            now < i.expiresAt)))) ∧
    (∀ (s : Client.State) (now : Nat) (newId pid inviter email : String)
        (project : Client.Project),
      Client.getProject s pid inviter = some project →
      project.ownerId = inviter →
      (Client.createInvitation s now newId pid inviter email =
          Except.error Client.InviteError.duplicate ↔
        ∃ i ∈ s.invitations, i.projectId = pid ∧ i.inviteeEmail = email ∧
          i.status = InvStatus.pending)) := by
  constructor
  · intro db now newId pid email user p hfind hcan
    have hcanb : (p.ownerId == user.id ||
        (Server.isMemberRow db pid user.id &&
          Server.allowInvite p.settings)) = true := by
      simp only [Bool.or_eq_true, Bool.and_eq_true, beq_iff_eq]
      tauto
    have hmIff : (db.members.any (fun m => m.projectId == pid &&
        db.users.any (fun u => u.id == m.userId &&
          u.email == Server.lowerStr email))) = true ↔
        (∃ m ∈ db.members, m.projectId = pid ∧ ∃ u ∈ db.users,
          u.id = m.userId ∧ u.email = Server.lowerStr email) := by
      simp only [List.any_eq_true, Bool.and_eq_true, beq_iff_eq]
    have hiIff : (db.invitations.any (fun i => i.projectId == pid &&
        i.inviteeEmail == Server.lowerStr email && i.status == InvStatus.pending &&
        decide (now < i.expiresAt))) = true ↔
        (∃ i ∈ db.invitations, i.projectId = pid ∧
          i.inviteeEmail = Server.lowerStr email ∧ i.status = InvStatus.pending ∧
          now < i.expiresAt) := by
      simp only [List.any_eq_true, Bool.and_eq_true, beq_iff_eq,
        decide_eq_true_eq]
      constructor
      · rintro ⟨i, him, ⟨⟨h1, h2⟩, h3⟩, h4⟩
        exact ⟨i, him, h1, h2, h3, h4⟩
      · rintro ⟨i, him, h1, h2, h3, h4⟩
        exact ⟨i, him, ⟨⟨h1, h2⟩, h3⟩, h4⟩
    simp only [Server.createInvitation, hfind, hcanb, Bool.not_true,
      Bool.false_eq_true, if_false]
    by_cases hm : (db.members.any (fun m => m.projectId == pid &&
        db.users.any (fun u => u.id == m.userId &&
          u.email == Server.lowerStr email))) = true
    · simp only [hm, if_true]
      exact ⟨fun _ => Or.inl (hmIff.mp hm), fun _ => Or.inl trivial⟩
    · simp only [Bool.not_eq_true] at hm
      simp only [hm, Bool.false_eq_true, if_false]
      by_cases hi : (db.invitations.any (fun i => i.projectId == pid &&
          i.inviteeEmail == Server.lowerStr email && i.status == InvStatus.pending &&
          decide (now < i.expiresAt))) = true
      · simp only [hi, if_true]
        exact ⟨fun _ => Or.inr (hiIff.mp hi), fun _ => Or.inr trivial⟩
      · simp only [Bool.not_eq_true] at hi
        simp only [hi, Bool.false_eq_true, if_false]
        constructor
        · intro hfalse
          rcases hfalse with h1 | h1 <;> exact absurd h1 (by simp)
        · intro hex
          exfalso
          rcases hex with hex1 | hex2
          · rw [← hmIff] at hex1
            rw [hm] at hex1
            exact absurd hex1 (by simp)
          · rw [← hiIff] at hex2
            rw [hi] at hex2
            exact absurd hex2 (by simp)
  · intro s now newId pid inviter email project hproj howner
    have hbne : (project.ownerId != inviter) = false := by
      simp [bne_eq_false_iff_eq, howner]
    have hdIff : (s.invitations.any (fun inv => inv.projectId == pid &&
        inv.inviteeEmail == email && inv.status == InvStatus.pending)) =
          true ↔
        (∃ i ∈ s.invitations, i.projectId = pid ∧ i.inviteeEmail = email ∧
          i.status = InvStatus.pending) := by
      simp only [List.any_eq_true, Bool.and_eq_true, beq_iff_eq]
      constructor
      · rintro ⟨i, him, ⟨h1, h2⟩, h3⟩
        exact ⟨i, him, h1, h2, h3⟩
      · rintro ⟨i, him, h1, h2, h3⟩
        exact ⟨i, him, ⟨h1, h2⟩, h3⟩
    simp only [Client.createInvitation, hproj, hbne, Bool.false_eq_true,
      if_false]
    by_cases hd : (s.invitations.any (fun inv => inv.projectId == pid &&
        inv.inviteeEmail == email && inv.status == InvStatus.pending)) = true
    · simp only [hd, if_true]
      exact ⟨fun _ => hdIff.mp hd, fun _ => trivial⟩
    · simp only [Bool.not_eq_true] at hd
      simp only [hd, Bool.false_eq_true, if_false]
      constructor
      · intro hfalse
        exact absurd hfalse (by simp)
      · intro hex
        exfalso
        rw [← hdIff, hd] at hex
        exact absurd hex (by simp)

/-- C5 amended, witness: the live unexpired invitation makes the server
answer a 409; the expired client invitation still blocks the owner. -/
theorem C5_amended_duplicate_invitation_conflict_witness :
    (Server.createInvitation Fixture.dbLive 5 "n" "p1" "a@x.com"
        Fixture.userO = Server.CreateInvResult.alreadyMemberConflict ∨
     Server.createInvitation Fixture.dbLive 5 "n" "p1" "a@x.com"
        Fixture.userO = Server.CreateInvResult.duplicateConflict) ∧
    Client.createInvitation
        { projects := [Fixture.projP1], invitations := [Fixture.invPending],
          tasks := [] }
        1000 "new2" "p1" "o" "a@x.com" =
      Except.error Client.InviteError.duplicate :=
  ⟨(C5_amended_duplicate_invitation_conflict.1 Fixture.dbLive 5 "n" "p1"
      "a@x.com" Fixture.userO Fixture.projRowP1 rfl (Or.inl rfl)).mpr
      (Or.inr ⟨Fixture.invRowLive, by decide, rfl, by decide, rfl, by decide⟩),
   (C5_amended_duplicate_invitation_conflict.2
      { projects := [Fixture.projP1], invitations := [Fixture.invPending],
        tasks := [] }
      1000 "new2" "p1" "o" "a@x.com" Fixture.projP1 rfl rfl).mpr
      ⟨Fixture.invPending, by decide, rfl, rfl, rfl⟩⟩

/-- C6 amended: the server permits invitation creation exactly for
`isOwner ∨ (isMember ∧ allowMemberInvite)` (403 otherwise); the
client-side service permits only the project owner — a member of a
project with `allowMemberInvite = true` still fails there (the
counterexample). -/
theorem C6_amended_invite_permission :
    (∀ (db : Server.DB) (now : Nat) (newId pid email : String)
        (user : Server.UserRow) (p : Server.ProjectRow),
      db.projects.find? (fun q => q.id == pid) = some p →
      (Server.createInvitation db now newId pid email user =
          Server.CreateInvResult.forbidden ↔
        ¬(p.ownerId = user.id ∨ (Server.isMemberRow db pid user.id = true ∧
            Server.allowInvite p.settings = true)))) ∧
    (∀ (s : Client.State) (now : Nat) (newId pid inviter email : String)
        (project : Client.Project),
      Client.getProject s pid inviter = some project →
      (Client.createInvitation s now newId pid inviter email =
          Except.error Client.InviteError.notOwner ↔
        project.ownerId ≠ inviter)) := by
  constructor
  · intro db now newId pid email user p hfind
    by_cases hc : (p.ownerId == user.id ||
        (Server.isMemberRow db pid user.id &&
          Server.allowInvite p.settings)) = true
    · simp only [Server.createInvitation, hfind, hc, Bool.not_true,
        Bool.false_eq_true, if_false]
      have hc2 : p.ownerId = user.id ∨
          (Server.isMemberRow db pid user.id = true ∧
            Server.allowInvite p.settings = true) := by
        simpa only [Bool.or_eq_true, Bool.and_eq_true, beq_iff_eq] using hc
      constructor
      · intro hfalse
        exfalso
        split at hfalse <;> (try split at hfalse) <;>
          exact absurd hfalse (by simp)
      · intro hneg
        exact absurd hc2 hneg
    · simp only [Bool.not_eq_true] at hc
      simp only [Server.createInvitation, hfind, hc, Bool.not_false, if_true]
      have hc2 : ¬(p.ownerId = user.id ∨
          (Server.isMemberRow db pid user.id = true ∧
            Server.allowInvite p.settings = true)) := by
        intro hcon
        have hck : (p.ownerId == user.id ||
            (Server.isMemberRow db pid user.id &&
              Server.allowInvite p.settings)) = true := by
          simp only [Bool.or_eq_true, Bool.and_eq_true, beq_iff_eq]
          tauto
        rw [hc] at hck
        exact absurd hck (by simp)
      exact ⟨fun _ => hc2, fun _ => trivial⟩
  · intro s now newId pid inviter email project hproj
    by_cases hb : (project.ownerId != inviter) = true
    · simp only [Client.createInvitation, hproj, hb, if_true]
      simp only [bne_iff_ne] at hb
      exact ⟨fun _ => hb, fun _ => trivial⟩
    · simp only [Bool.not_eq_true] at hb
      simp only [Client.createInvitation, hproj, hb, Bool.false_eq_true,
        if_false]
      simp only [bne_eq_false_iff_eq] at hb
      constructor
      · intro hfalse
        exfalso
        split at hfalse <;> exact absurd hfalse (by simp)
      · intro hne
        exact absurd hb hne

/-- C6 amended, witness: the outside user is forbidden on the server; the
member m is refused by the client although allowMemberInvite is true. -/
theorem C6_amended_invite_permission_witness :
    Server.createInvitation Fixture.dbExpired 5 "n" "p1" "b@x.com"
        Fixture.userA = Server.CreateInvResult.forbidden ∧
    Client.createInvitation
        { projects := [Fixture.projInviteOnly], invitations := [],
          tasks := [] }
        5 "n" "p1" "m" "b@x.com" =
      Except.error Client.InviteError.notOwner :=
  ⟨(C6_amended_invite_permission.1 Fixture.dbExpired 5 "n" "p1" "b@x.com"
      Fixture.userA Fixture.projRowP1 rfl).mpr (by decide),
   (C6_amended_invite_permission.2
      { projects := [Fixture.projInviteOnly], invitations := [], tasks := [] }
      5 "n" "p1" "m" "b@x.com" Fixture.projInviteOnly rfl).mpr (by decide)⟩

/-- C7 amended: non-members get not-found from the project reads — the
client `getProject` yields null and the server `GET /projects/:id` the 404
kind — and the client task read yields the empty list; but the server
task-list route `GET /tasks/project/:projectId` answers the 403
`forbidden` result for them (the counterexample), a permission-denied
rather than a not-found shape. -/
theorem C7_amended_nonmember_reads :
    (∀ (db : Server.DB) (pid uid : String),
      (∀ p ∈ db.projects, p.id = pid → p.ownerId ≠ uid ∧
        Server.isMemberRow db pid uid = false) →
      Server.getProjectById db pid uid =
        Server.ProjectViewResult.notFoundKind ∧
      Server.getProjectTasks db pid uid =
        Server.ProjectTasksResult.forbidden) ∧
    (∀ (s : Client.State) (pid uid : String),
      (∀ p ∈ s.projects, p.projectId = pid → p.ownerId ≠ uid ∧
        uid ∉ p.members) →
      Client.getProject s pid uid = none ∧
      Client.getTasksByProject s pid uid = []) := by
  constructor
  · intro db pid uid hyp
    have hnone : db.projects.find? (fun p => p.id == pid &&
        (p.ownerId == uid || Server.isMemberRow db pid uid)) = none := by
      rw [List.find?_eq_none]
      intro p hp hcond
      simp only [Bool.and_eq_true, Bool.or_eq_true, beq_iff_eq] at hcond
      obtain ⟨h1, h2⟩ := hcond
      obtain ⟨h3, h4⟩ := hyp p hp h1
      rcases h2 with h5 | h5
      · exact h3 h5
      · rw [h4] at h5
        exact absurd h5 (by simp)
    have hany : (db.projects.any (fun p => p.id == pid &&
        (p.ownerId == uid || Server.isMemberRow db pid uid))) = false := by
      rw [List.any_eq_false]
      intro p hp hcond
      exact List.find?_eq_none.mp hnone p hp hcond
    refine ⟨?_, ?_⟩
    · simp only [Server.getProjectById, hnone]
    · simp only [Server.getProjectTasks, hany, Bool.false_eq_true, if_false]
  · intro s pid uid hyp
    have hget : Client.getProject s pid uid = none := by
      cases hf : s.projects.find? (fun p => p.projectId == pid) with
      | none => simp [Client.getProject, hf]
      | some p =>
        have hmem := List.mem_of_find?_eq_some hf
        have hpred := List.find?_some hf
        simp only [beq_iff_eq] at hpred
        obtain ⟨h1, h2⟩ := hyp p hmem hpred
        simp only [Client.getProject, hf]
        rw [if_pos]
        simp only [Bool.and_eq_true, bne_iff_ne, Bool.not_eq_true]
        constructor
        · exact h1
        · simp [h2]
    exact ⟨hget, by simp [Client.getTasksByProject, hget]⟩

/-- C7 amended, witness: the non-member u2 gets the 404 kind from the
project read, the 403 from the task-list read, and null/empty from the
client reads. -/
theorem C7_amended_nonmember_reads_witness :
    Server.getProjectById Fixture.dbExpired "p1" "u2" =
      Server.ProjectViewResult.notFoundKind ∧
    Server.getProjectTasks Fixture.dbExpired "p1" "u2" =
      Server.ProjectTasksResult.forbidden ∧
    Client.getProject
      { projects := [Fixture.projP1], invitations := [], tasks := [] }
      "p1" "u2" = none ∧
    Client.getTasksByProject
      { projects := [Fixture.projP1], invitations := [], tasks := [] }
      "p1" "u2" = [] :=
  ⟨(C7_amended_nonmember_reads.1 Fixture.dbExpired "p1" "u2" (by decide)).1,
   (C7_amended_nonmember_reads.1 Fixture.dbExpired "p1" "u2" (by decide)).2,
   (C7_amended_nonmember_reads.2
      { projects := [Fixture.projP1], invitations := [], tasks := [] }
      "p1" "u2" (by decide)).1,
   (C7_amended_nonmember_reads.2
      { projects := [Fixture.projP1], invitations := [], tasks := [] }
      "p1" "u2" (by decide)).2⟩

/-- C8 amended: on every client `updateTask` whose payload does not carry
`completedAt`, the stored `completedAt` is overwritten (with now) exactly
on the transition where the payload status is completed and the stored
status was not, and is preserved by every other permitted update; in
particular an update of an already-completed task that keeps the status
completed (or does not touch it) leaves both `completedAt` and the
completed status unchanged.  A payload that does carry `completedAt` can
still change it (the counterexample), and the server-side handler ignores
caller-supplied `completed_at` altogether (C10). -/
theorem C8_amended_completedAt_transition :
    ∀ (s : Client.State) (now : Nat) (taskId : String)
      (u : Client.TaskUpdates) (userId : String) (task : Client.Task),
      s.tasks.find? (fun t => t.taskId == taskId) = some task →
      u.completedAt = none →
      (match Client.updateTask s now taskId u userId with
       | Client.UpdateTaskResult.ok _ t2 =>
          t2.completedAt = (if u.status = some TaskStatus.completed ∧
              task.status ≠ TaskStatus.completed then some now
            else task.completedAt) ∧
          (task.status = TaskStatus.completed →
            (u.status = none ∨ u.status = some TaskStatus.completed) →
            t2.completedAt = task.completedAt ∧
            t2.status = TaskStatus.completed)
       | _ => True) := by
  intro s now taskId u userId task hfind hu
  simp only [Client.updateTask, hfind]
  cases hproj : Client.getProject s task.projectId userId with
  | none => trivial
  | some project =>
    by_cases hce : Client.canEditTask project task userId = true
    · simp only [hce, Bool.not_true, Bool.false_eq_true, if_false]
      by_cases hb : (u.status == some TaskStatus.completed &&
          task.status != TaskStatus.completed) = true
      · simp only [hb, if_true]
        have hb2 : u.status = some TaskStatus.completed ∧
            task.status ≠ TaskStatus.completed := by
          simpa only [Bool.and_eq_true, beq_iff_eq, bne_iff_ne] using hb
        refine ⟨?_, ?_⟩
        · simp [hb2]
        · intro h1 _
          exact absurd h1 hb2.2
      · simp only [Bool.not_eq_true] at hb
        simp only [hb, Bool.false_eq_true, if_false]
        have hb2 : ¬(u.status = some TaskStatus.completed ∧
            task.status ≠ TaskStatus.completed) := by
          intro hcon
          have hbt : (u.status == some TaskStatus.completed &&
              task.status != TaskStatus.completed) = true := by
            simp only [Bool.and_eq_true, beq_iff_eq, bne_iff_ne]
            exact hcon
          rw [hb] at hbt
          exact absurd hbt (by simp)
        refine ⟨?_, ?_⟩
        · rw [if_neg hb2]
          simp [Client.Task.applyUpdates, hu]
        · intro h1 h2
          constructor
          · simp [Client.Task.applyUpdates, hu]
          · rcases h2 with h3 | h3 <;>
              simp [Client.Task.applyUpdates, h3, h1]
    · simp only [Bool.not_eq_true] at hce
      simp only [hce, Bool.not_false, if_true]

/-- C8 amended, witness: the owner edits the description of the completed
task; completedAt stays at its recorded value 5. -/
theorem C8_amended_completedAt_transition_witness :
    ({ Fixture.taskDone with description := "x", updatedAt := 100 }
        : Client.Task).completedAt = some 5 :=
  (C8_amended_completedAt_transition
    { projects := [Fixture.projP1], invitations := [],
      tasks := [Fixture.taskDone] }
    100 "t1" { description := some "x" } "o" Fixture.taskDone rfl rfl).1

/-- C9 amended: on the server, only the owner may remove (403 otherwise),
the owner as target is always rejected, and a non-member target answers
404 with no row deleted; on the client the same two owner rules hold —
a caller who cannot see the project gets the `false` result, a visible
non-owner caller gets the thrown not-owner error, and an owner targeting
themselves gets the thrown cannot-remove-owner error — but a non-member
target yields success (the counterexample) while leaving every member
list unchanged. -/
theorem C9_amended_remove_member :
    (∀ (db : Server.DB) (pid target : String) (user : Server.UserRow),
      ((¬∃ p ∈ db.projects, p.id = pid ∧ p.ownerId = user.id) →
        Server.removeMember db pid target user =
          Server.RemoveMemberResult.forbidden) ∧
      ((∃ p ∈ db.projects, p.id = pid ∧ p.ownerId = user.id) →
        target = user.id →
        Server.removeMember db pid target user =
          Server.RemoveMemberResult.ownerTargetError) ∧
      ((∃ p ∈ db.projects, p.id = pid ∧ p.ownerId = user.id) →
        target ≠ user.id →
        Server.isMemberRow db pid target = false →
        Server.removeMember db pid target user =
          Server.RemoveMemberResult.memberNotFound)) ∧
    (∀ (s : Client.State) (now : Nat) (pid target uid : String),
      Client.getProject s pid uid = none →
      Client.removeMember s now pid target uid =
        Client.RemoveMemberResult.noAccess) ∧
    (∀ (s : Client.State) (now : Nat) (pid target uid : String)
        (project : Client.Project),
      Client.getProject s pid uid = some project →
      project.ownerId ≠ uid →
      Client.removeMember s now pid target uid =
        Client.RemoveMemberResult.notOwnerError) ∧
    (∀ (s : Client.State) (now : Nat) (pid target uid : String)
        (project : Client.Project),
      Client.getProject s pid uid = some project →
      project.ownerId = uid →
      target = project.ownerId →
      Client.removeMember s now pid target uid =
        Client.RemoveMemberResult.ownerTargetError) ∧
    (∀ (s : Client.State) (now : Nat) (pid target uid : String)
        (project : Client.Project),
      Client.getProject s pid uid = some project →
      project.ownerId = uid →
      target ≠ uid →
      (∀ p ∈ s.projects, target ∉ p.members) →
      (match Client.removeMember s now pid target uid with
       | Client.RemoveMemberResult.removed s2 =>
          s2.projects.map (fun p => p.members) =
            s.projects.map (fun p => p.members)
       | _ => False)) := by
  refine ⟨?_, ?_, ?_, ?_, ?_⟩
  case refine_2 =>
    intro s now pid target uid h
    simp [Client.removeMember, h]
  case refine_3 =>
    intro s now pid target uid project hproj hne
    have hb : (project.ownerId != uid) = true := by
      simpa [bne_iff_ne] using hne
    simp [Client.removeMember, hproj, hb]
  case refine_4 =>
    intro s now pid target uid project hproj howner htar
    have hob : (project.ownerId != uid) = false := by
      simp [bne_eq_false_iff_eq, howner]
    have htb : (target == project.ownerId) = true := by
      simp [htar]
    simp [Client.removeMember, hproj, hob, htb]
  case refine_1 =>
    intro db pid target user
    refine ⟨?_, ?_, ?_⟩
    · intro hno
      have hany : (db.projects.any (fun p => p.id == pid &&
          p.ownerId == user.id)) = false := by
        rw [List.any_eq_false]
        intro p hp hcond
        simp only [Bool.and_eq_true, beq_iff_eq] at hcond
        exact hno ⟨p, hp, hcond.1, hcond.2⟩
      simp [Server.removeMember, hany]
    · intro hyes htar
      have hany : (db.projects.any (fun p => p.id == pid &&
          p.ownerId == user.id)) = true := by
        rw [List.any_eq_true]
        obtain ⟨p, hp, h1, h2⟩ := hyes
        exact ⟨p, hp, by simp [h1, h2]⟩
      simp [Server.removeMember, hany, htar]
    · intro hyes htar hmem
      have hany : (db.projects.any (fun p => p.id == pid &&
          p.ownerId == user.id)) = true := by
        rw [List.any_eq_true]
        obtain ⟨p, hp, h1, h2⟩ := hyes
        exact ⟨p, hp, by simp [h1, h2]⟩
      have htb : (target == user.id) = false := by
        simpa [beq_eq_false_iff_ne] using htar
      simp [Server.removeMember, hany, htb, hmem]
  · intro s now pid target uid project hproj howner htar hnomem
    have hfind : s.projects.find? (fun p => p.projectId == pid) =
        some project := by
      cases hf : s.projects.find? (fun p => p.projectId == pid) with
      | none => simp [Client.getProject, hf] at hproj
      | some q =>
        simp only [Client.getProject, hf] at hproj
        by_cases hq : (q.ownerId != uid && !(q.members.contains uid)) = true
        · rw [if_pos hq] at hproj
          exact absurd hproj (by simp)
        · simp only [Bool.not_eq_true] at hq
          rw [hq] at hproj
          simp only [Bool.false_eq_true, if_false, Option.some.injEq] at hproj
          simpa using hproj
    have hob : (project.ownerId != uid) = false := by
      simp [bne_eq_false_iff_eq, howner]
    have htb : (target == project.ownerId) = false := by
      rw [howner]
      simpa [beq_eq_false_iff_ne] using htar
    simp only [Client.removeMember, hproj, hob, Bool.false_eq_true, if_false,
      htb, hfind]
    rw [List.map_map]
    refine List.map_congr_left ?_
    intro p hp
    by_cases hpp : (p.projectId == pid) = true
    · simp only [Function.comp_apply, hpp, if_true]
      exact List.filter_eq_self.mpr (by
        intro m hm
        simp only [bne_iff_ne, ne_eq, decide_eq_true_eq]
        intro hmt
        rw [hmt] at hm
        exact hnomem p hp hm)
    · simp only [Bool.not_eq_true] at hpp
      simp only [Function.comp_apply, hpp, Bool.false_eq_true, if_false]

/-- C9 amended, witness: the non-owner is forbidden, the owner target
rejected, the non-member target answers 404 on the server; on the client
a stranger gets the no-access `false`, the member m the not-owner error,
the owner targeting o the cannot-remove-owner error, and the no-op
removal leaves the member lists of the store unchanged. -/
theorem C9_amended_remove_member_witness :
    Server.removeMember Fixture.dbExpired "p1" "x" Fixture.userA =
      Server.RemoveMemberResult.forbidden ∧
    Server.removeMember Fixture.dbExpired "p1" "o" Fixture.userO =
      Server.RemoveMemberResult.ownerTargetError ∧
    Server.removeMember Fixture.dbExpired "p1" "x" Fixture.userO =
      Server.RemoveMemberResult.memberNotFound ∧
    Client.removeMember
        { projects := [Fixture.projP1], invitations := [], tasks := [] }
        9 "p1" "m" "stranger" = Client.RemoveMemberResult.noAccess ∧
    Client.removeMember
        { projects := [Fixture.projP1], invitations := [], tasks := [] }
        9 "p1" "a" "m" = Client.RemoveMemberResult.notOwnerError ∧
    Client.removeMember
        { projects := [Fixture.projP1], invitations := [], tasks := [] }
        9 "p1" "o" "o" = Client.RemoveMemberResult.ownerTargetError ∧
    ([{ Fixture.projP1 with updatedAt := 9 }] : List Client.Project).map
        (fun p => p.members) =
      [Fixture.projP1].map (fun p => p.members) :=
  ⟨(C9_amended_remove_member.1 Fixture.dbExpired "p1" "x" Fixture.userA).1
      (by decide),
   (C9_amended_remove_member.1 Fixture.dbExpired "p1" "o" Fixture.userO).2.1
      (by decide) rfl,
   (C9_amended_remove_member.1 Fixture.dbExpired "p1" "x" Fixture.userO).2.2
      (by decide) (by decide) (by decide),
   C9_amended_remove_member.2.1
      { projects := [Fixture.projP1], invitations := [], tasks := [] }
      9 "p1" "m" "stranger" rfl,
   C9_amended_remove_member.2.2.1
      { projects := [Fixture.projP1], invitations := [], tasks := [] }
      9 "p1" "a" "m" Fixture.projP1 rfl (by decide),
   C9_amended_remove_member.2.2.2.1
      { projects := [Fixture.projP1], invitations := [], tasks := [] }
      9 "p1" "o" "o" Fixture.projP1 rfl rfl rfl,
   C9_amended_remove_member.2.2.2.2
      { projects := [Fixture.projP1], invitations := [], tasks := [] }
      9 "p1" "x" "o" Fixture.projP1 rfl rfl (by decide) (by decide)⟩

/-- C10: the server-side task update can change only the allowlisted
columns (title, description, status, priority, assignee_id, due_date,
estimate, milestone_id, time_spent, styling) plus the internally managed
completed_at and updated_at: (1) any other column of the row — tags,
success_metrics, rich_content, project_id, whatever the body supplies —
is unchanged by the update (and by the 400 no-field rejection); (2) the
completed_at column itself changes only on the transition where the body
sets status completed and the stored status was not completed, so a
caller-supplied completed_at value is ignored. -/
theorem C10_task_update_field_allowlist :
    ∀ (row : String → Server.JVal) (body : Server.Body) (st : TaskStatus)
      (now : Nat),
    (∀ c, c ∉ Server.allowedFields → c ≠ "completed_at" →
      c ≠ "updated_at" →
      (Server.runTaskUpdate row body st now).rowOr row c = row c) ∧
    (¬(Server.bodyGet body "status" = some (Server.JVal.str "completed") ∧
        st ≠ TaskStatus.completed) →
      (Server.runTaskUpdate row body st now).rowOr row "completed_at" =
        row "completed_at") := by
  intro row body st now
  constructor
  · intro c hc h2 h3
    unfold Server.runTaskUpdate
    by_cases he : (Server.buildUpdateFields body st now).isEmpty = true
    · rw [if_pos he]
      rfl
    · rw [if_neg he]
      show (if c = "updated_at" then Server.JVal.num (Int.ofNat now)
          else Server.applySet row (Server.buildUpdateFields body st now) c) =
        row c
      rw [if_neg h3]
      simp only [Server.applySet,
        buildUpdateFields_find_eq_none body st now c hc h2]
  · intro hnc
    unfold Server.runTaskUpdate
    by_cases he : (Server.buildUpdateFields body st now).isEmpty = true
    · rw [if_pos he]
      rfl
    · rw [if_neg he]
      show (if "completed_at" = "updated_at" then
          Server.JVal.num (Int.ofNat now)
        else Server.applySet row (Server.buildUpdateFields body st now)
          "completed_at") = row "completed_at"
      rw [if_neg (by decide : ¬("completed_at" = "updated_at"))]
      have hnone : (Server.buildUpdateFields body st now).find?
          (fun kv => kv.fst = "completed_at") = none := by
        rw [List.find?_eq_none]
        intro kv hkv hfalse
        simp only [decide_eq_true_eq] at hfalse
        simp only [Server.buildUpdateFields, if_neg hnc] at hkv
        obtain ⟨f, hf, hmap⟩ := List.mem_filterMap.mp hkv
        cases hv : Server.fieldValue body f with
        | none => rw [hv] at hmap; exact absurd hmap (by simp)
        | some v =>
          rw [hv] at hmap
          simp only [Option.map_some', Option.some.injEq] at hmap
          have hfc : f = "completed_at" := by
            rw [← hmap] at hfalse
            exact hfalse
          rw [hfc] at hf
          exact absurd hf (by decide)
      simp only [Server.applySet, hnone]

/-- C10, witness: a body supplying tags, successMetrics, project_id, a
completed_at and a title changes neither the tags, the project_id nor the
completed_at column of the stored (already completed) row. -/
theorem C10_task_update_field_allowlist_witness :
    (Server.runTaskUpdate Fixture.rowSelf Fixture.bodyMixed
        TaskStatus.completed 5).rowOr Fixture.rowSelf "tags" =
      Fixture.rowSelf "tags" ∧
    (Server.runTaskUpdate Fixture.rowSelf Fixture.bodyMixed
        TaskStatus.completed 5).rowOr Fixture.rowSelf "project_id" =
      Fixture.rowSelf "project_id" ∧
    (Server.runTaskUpdate Fixture.rowSelf Fixture.bodyMixed
        TaskStatus.completed 5).rowOr Fixture.rowSelf "completed_at" =
      Fixture.rowSelf "completed_at" :=
  ⟨(C10_task_update_field_allowlist Fixture.rowSelf Fixture.bodyMixed
      TaskStatus.completed 5).1 "tags" (by decide) (by decide) (by decide),
   (C10_task_update_field_allowlist Fixture.rowSelf Fixture.bodyMixed
      TaskStatus.completed 5).1 "project_id" (by decide) (by decide)
      (by decide),
   (C10_task_update_field_allowlist Fixture.rowSelf Fixture.bodyMixed
      TaskStatus.completed 5).2 (by decide)⟩
